import Mathlib

/-!
Verification of the `pointless` analyzer (a Go linter that suggests value
types instead of pointers for small structs) against its specification.

The definitions below are a shallow embedding of `analyzer/analyzer.go`:
each Lean definition carries a doc comment naming the Go function or data
it embeds.  Go strings are modelled as `List Char`, resolved object
identities (`types.Object` / `ast.Object` positions) as `Nat`, and the
package-wide maps built by the trackers as predicates or lists.
-/

namespace Pointless

/-- Go strings (byte/char sequences) are modelled as lists of characters. -/
abbrev GoStr := List Char

/-! ## The type model and the size oracle

Embeds `go/types` type shapes as consumed by `sizeOf` (analyzer.go), which
calls `types.SizesFor("gc", "amd64")` (word size 8, max alignment 8) and
falls back to `types.StdSizes{WordSize: 8, MaxAlign: 8}`. -/

mutual
/-- A resolved `go/types` type: the kinds the analyzer's size model
distinguishes.  `struct` carries the type name and the ordered field types;
a named type whose underlying type is a struct is represented by the
`struct` node directly (matching `Underlying()`). -/
inductive Ty where
  | bool : Ty
  | byte : Ty
  | int32 : Ty
  | int64 : Ty
  | stringT : Ty
  | ptr : Ty → Ty
  | slice : Ty → Ty
  | mapT : Ty → Ty → Ty
  | chanT : Ty → Ty
  | array : Nat → Ty → Ty
  | struct : String → TyList → Ty

/-- Ordered struct field types. -/
inductive TyList where
  | nil : TyList
  | cons : Ty → TyList → TyList
end

deriving instance DecidableEq for Ty
deriving instance DecidableEq for TyList

/-- Rounds `n` up to the next multiple of `a` (the `align` helper of
`go/types/sizes.go`; alignments produced below are always positive). -/
def alignTo (n a : Nat) : Nat := if a = 0 then n else ((n + a - 1) / a) * a

mutual
/-- Embeds `(*types.StdSizes).Alignof` for word size 8 / max alignment 8:
basic types align to their size (capped at 8), strings and slices and
pointers to the word size, arrays to their element, structs to the maximum
field alignment (at least 1). -/
def alignOf : Ty → Nat
  | .bool => 1
  | .byte => 1
  | .int32 => 4
  | .int64 => 8
  | .stringT => 8
  | .ptr _ => 8
  | .slice _ => 8
  | .mapT _ _ => 8
  | .chanT _ => 8
  | .array _ t => alignOf t
  | .struct _ fs => maxAlignFields fs

/-- Maximum alignment of a field list, at least 1. -/
def maxAlignFields : TyList → Nat
  | .nil => 1
  | .cons t ts => max (alignOf t) (maxAlignFields ts)
end

mutual
/-- Embeds `sizeOf` (analyzer.go), i.e. `Sizeof` of the gc/amd64 size
model of `go/types`: basics by size, `string` two words, pointer, map and
channel one word (8), slice three words (24), arrays element size times
length, structs laid out field by field at aligned offsets with the total
rounded up to the struct alignment. -/
def sizeOf : Ty → Nat
  | .bool => 1
  | .byte => 1
  | .int32 => 4
  | .int64 => 8
  | .stringT => 16
  | .ptr _ => 8
  | .slice _ => 24
  | .mapT _ _ => 8
  | .chanT _ => 8
  | .array n t => n * sizeOf t
  | .struct _ fs => alignTo (fieldsEnd fs 0) (maxAlignFields fs)

/-- Offset just past the last field, starting from offset `off`: each field
is placed at the next offset aligned to its own alignment. -/
def fieldsEnd : TyList → Nat → Nat
  | .nil, off => off
  | .cons t ts, off => fieldsEnd ts (alignTo off (alignOf t) + sizeOf t)
end

/-- The `SmallStruct` of the analyzer's test data:
`{ID int64; Name string; Age int32; IsActive bool}` (32 bytes). -/
def smallStructTy : Ty :=
  .struct "SmallStruct"
    (.cons .int64 (.cons .stringT (.cons .int32 (.cons .bool .nil))))

example : sizeOf smallStructTy = 32 := by decide

/-- The `LargeStruct` of the analyzer's test data:
three 512-byte arrays (1536 bytes). -/
def largeStructTy : Ty :=
  .struct "LargeStruct"
    (.cons (.array 512 .byte) (.cons (.array 512 .byte)
      (.cons (.array 512 .byte) .nil)))

example : sizeOf largeStructTy = 1536 := by decide

/-! ## Syntax model

Embeds the subset of `go/ast` the analyzer inspects.  Identifier occurrences
carry the resolved object identity (a `Nat` standing for the object's
declaration position, which is how `findNilUsages` keys its map and how
`types.Object` identity is decided within one unit) plus a flag saying
whether the occurrence is a defining one (`TypesInfo.Defs`) or a use
(`TypesInfo.Uses`). -/

/-- A type expression as it appears in the AST (`ast.Expr` used in type
position).  `tyIdent t` is a (possibly qualified) type name whose resolved
type (`pass.TypesInfo.Types[x].Type`) is `t`; `none` models an expression
with no recorded type information. -/
inductive TypeExpr where
  | tyIdent : Option Ty → TypeExpr
  | star : TypeExpr → TypeExpr
  | array : Option Nat → TypeExpr → TypeExpr
  | otherT : TypeExpr
deriving DecidableEq

/-- Embeds the `pass.TypesInfo.Types` lookup on a type expression in a
type-checked unit: a pointer expression denotes a pointer type, an array
expression without length a slice, one with length an array. -/
def typesOf : TypeExpr → Option Ty
  | .tyIdent t => t
  | .star x => (typesOf x).map Ty.ptr
  | .array none elt => (typesOf elt).map Ty.slice
  | .array (some n) elt => (typesOf elt).map (Ty.array n)
  | .otherT => none

/-- Embeds the `tv.Type.Underlying().(*types.Struct)` type assertion: in
this model a named struct type is its `struct` node. -/
def isStructUnderlying : Ty → Bool
  | .struct _ _ => true
  | _ => false

/-- The binary operators `findNilUsages` distinguishes
(`token.EQL`, `token.NEQ`, anything else). -/
inductive BinOp where
  | eql : BinOp
  | neq : BinOp
  | otherOp : BinOp
deriving DecidableEq

/-- A `go/ast` generic-declaration value spec (`ast.ValueSpec`): declared
names with their `TypesInfo.Defs` object identities (`none` when the Defs
lookup yields nil), and the optional declared type. -/
structure ValueSpec where
  names : List (String × Option Nat)
  ty : Option TypeExpr
deriving DecidableEq

/-- A `go/ast` `GenDecl` with its source line; `isVar` is `Tok == token.VAR`. -/
structure GenDecl where
  line : Nat
  isVar : Bool
  specs : List ValueSpec
deriving DecidableEq

mutual
/-- Embeds the `ast.Expr` shapes the analyzer matches on.
`ident name obj isDef`: an identifier occurrence with resolved object
identity `obj` (covering both `ident.Obj.Pos()` and the
`TypesInfo.Defs`/`Uses` entry) where `isDef` marks a defining occurrence.
`tyE` embeds a type expression used as an argument (`make([]*T, n)`),
`funcLit` a function literal with its body. -/
inductive Expr where
  | ident : String → Option Nat → Bool → Expr
  | sel : Expr → Expr
  | index : Expr → Expr → Expr
  | star : Expr → Expr
  | binary : BinOp → Expr → Expr → Expr
  | call : Expr → ExprList → Expr
  | tyE : TypeExpr → Expr
  | funcLit : StmtList → Expr
  | otherE : Expr

/-- Expression sequences (argument lists, result lists …). -/
inductive ExprList where
  | nil : ExprList
  | cons : Expr → ExprList → ExprList

/-- Embeds the `ast.Stmt` shapes the analyzer matches on.  `assign` carries
the statement's source line (used by the suppression check when the
inspector visits it as a node), the `Tok == token.DEFINE` flag and both
sides; `declS` is a `GenDecl` appearing as a statement inside a body. -/
inductive Stmt where
  | ret : ExprList → Stmt
  | assign : Nat → Bool → ExprList → ExprList → Stmt
  | incDec : Expr → Stmt
  | block : StmtList → Stmt
  | exprS : Expr → Stmt
  | declS : GenDecl → Stmt
  | otherS : Stmt

/-- Statement sequences. -/
inductive StmtList where
  | nil : StmtList
  | cons : Stmt → StmtList → StmtList
end

/-- Conversion of an embedded expression list to a Lean list. -/
def ExprList.toList : ExprList → List Expr
  | .nil => []
  | .cons e es => e :: es.toList

/-- The `TypesInfo.Uses` lookup on an identifier: present only on
non-defining occurrences. -/
def usesOf : Expr → Option Nat
  | .ident _ obj isDef => if isDef then none else obj
  | _ => none

/-- The `TypesInfo.Defs` lookup on an identifier: present only on defining
occurrences. -/
def defsOf : Expr → Option Nat
  | .ident _ obj isDef => if isDef then obj else none
  | _ => none

/-- Embeds `isNil` (analyzer.go): the expression is an identifier whose
name is the literal string `nil`. -/
def isNil : Expr → Bool
  | .ident n _ _ => n == "nil"
  | _ => false

mutual
/-- Preorder list of a statement together with every statement nested below
it, crossing into function-literal bodies — mirroring that the
`inspector.Inspector` traversal visits statement nodes at any depth and that
`*ast.FuncLit` is not in any of the analyzer's node filters, so statements
inside a literal are attributed to the enclosing `*ast.FuncDecl`. -/
def stmtAll : Stmt → List Stmt
  | .ret es => .ret es :: exprListStmts es
  | .assign ln d lhs rhs =>
      .assign ln d lhs rhs :: (exprListStmts lhs ++ exprListStmts rhs)
  | .incDec x => .incDec x :: exprStmts x
  | .block ss => .block ss :: stmtListAll ss
  | .exprS e => .exprS e :: exprStmts e
  | .declS g => [.declS g]
  | .otherS => [.otherS]

/-- Preorder statements of a statement sequence. -/
def stmtListAll : StmtList → List Stmt
  | .nil => []
  | .cons s ss => stmtAll s ++ stmtListAll ss

/-- Statements nested inside an expression (through function literals). -/
def exprStmts : Expr → List Stmt
  | .ident _ _ _ => []
  | .sel x => exprStmts x
  | .index x i => exprStmts x ++ exprStmts i
  | .star x => exprStmts x
  | .binary _ x y => exprStmts x ++ exprStmts y
  | .call f args => exprStmts f ++ exprListStmts args
  | .tyE _ => []
  | .funcLit ss => stmtListAll ss
  | .otherE => []

/-- Statements nested inside an expression sequence. -/
def exprListStmts : ExprList → List Stmt
  | .nil => []
  | .cons e es => exprStmts e ++ exprListStmts es
end

mutual
/-- Preorder list of a statement's direct sub-statements (itself included),
not crossing into function literals: the statements of the declaration's
body proper. -/
def stmtDirect : Stmt → List Stmt
  | .ret es => [.ret es]
  | .assign ln d lhs rhs => [.assign ln d lhs rhs]
  | .incDec x => [.incDec x]
  | .block ss => .block ss :: stmtListDirect ss
  | .exprS e => [.exprS e]
  | .declS g => [.declS g]
  | .otherS => [.otherS]

/-- Direct statements of a statement sequence. -/
def stmtListDirect : StmtList → List Stmt
  | .nil => []
  | .cons s ss => stmtDirect s ++ stmtListDirect ss
end

mutual
/-- Preorder list of an expression and all of its sub-expressions,
crossing into function-literal bodies, mirroring the inspector's full
traversal used by `findNilUsages`. -/
def exprAll : Expr → List Expr
  | .ident n o d => [.ident n o d]
  | .sel x => .sel x :: exprAll x
  | .index x i => .index x i :: (exprAll x ++ exprAll i)
  | .star x => .star x :: exprAll x
  | .binary op x y => .binary op x y :: (exprAll x ++ exprAll y)
  | .call f args => .call f args :: (exprAll f ++ exprListAll args)
  | .tyE t => [.tyE t]
  | .funcLit ss => .funcLit ss :: stmtListExprs ss
  | .otherE => [.otherE]

/-- Preorder expressions of an expression sequence. -/
def exprListAll : ExprList → List Expr
  | .nil => []
  | .cons e es => exprAll e ++ exprListAll es

/-- Expressions nested inside a statement (recursively). -/
def stmtExprs : Stmt → List Expr
  | .ret es => exprListAll es
  | .assign _ _ lhs rhs => exprListAll lhs ++ exprListAll rhs
  | .incDec x => exprAll x
  | .block ss => stmtListExprs ss
  | .exprS e => exprAll e
  | .declS _ => []
  | .otherS => []

/-- Expressions nested inside a statement sequence. -/
def stmtListExprs : StmtList → List Expr
  | .nil => []
  | .cons s ss => stmtExprs s ++ stmtListExprs ss
end

deriving instance DecidableEq for Expr
deriving instance DecidableEq for ExprList
deriving instance DecidableEq for Stmt
deriving instance DecidableEq for StmtList

/-! ## Declarations, files, the analyzed unit -/

/-- The first (and in Go only) receiver field of a method
(`fn.Recv.List[0]`): its names with their `TypesInfo.Defs` identities, and
its type expression. -/
structure Receiver where
  names : List (String × Option Nat)
  ty : TypeExpr
deriving DecidableEq

/-- A `go/ast` `FuncDecl`: source line, optional receiver (present exactly
when `fn.Recv != nil && len(fn.Recv.List) > 0`), optional result type list
(present exactly when `fn.Type.Results != nil`), and the body. -/
structure FuncDecl where
  line : Nat
  recv : Option Receiver
  results : Option (List TypeExpr)
  body : StmtList
deriving DecidableEq

/-- A top-level declaration of a file. -/
inductive Decl where
  | func : FuncDecl → Decl
  | gen : GenDecl → Decl
deriving DecidableEq

/-- A source comment: its line and raw text including the `//` or
`/*`-and-`*/` markers. -/
structure Comment where
  line : Nat
  text : GoStr
deriving DecidableEq

/-- One file of the analyzed unit: its file name (as reported by
`pass.Fset.File(...).Name()`), declarations in source order, comments. -/
structure File where
  name : GoStr
  decls : List Decl
  comments : List Comment
deriving DecidableEq

/-! ## ReturnNullTracker: `findNilReturns` -/

/-- Does this statement make `findNilReturns` flag the enclosing function:
it is a return statement one of whose direct result operands is `nil`. -/
def isNilReturn : Stmt → Bool
  | .ret es => es.toList.any isNil
  | _ => false

/-- Embeds `findNilReturns` (analyzer.go), expressed per declaration: the
inspector's preorder walk attributes every `*ast.ReturnStmt` below a
`*ast.FuncDecl` — function literals included, since `*ast.FuncLit` is not
in the node filter — to that declaration, and flags it when some direct
result operand is `nil`. -/
def fnReturnsNil (fn : FuncDecl) : Bool :=
  (stmtListAll fn.body).any isNilReturn

/-! ## ReceiverMutationTracker: `findReceiverMutations` -/

/-- The receiver object of a method, as resolved by `findReceiverMutations`
(`pass.TypesInfo.Defs[recv.Names[0]]`); `none` when there is no receiver,
no receiver name, or no Defs entry. -/
def recvObj (fn : FuncDecl) : Option Nat :=
  match fn.recv with
  | none => none
  | some r =>
    match r.names.head? with
    | none => none
    | some p => p.2

/-- Embeds `refersToReceiver` (analyzer.go): the expression resolves to the
receiver object `b` through a chain of selector, index and dereference
steps; the base identifier is compared by `TypesInfo.Uses` object identity,
never by name. -/
def refersToReceiver (b : Nat) : Expr → Bool
  | .ident n obj isDef => usesOf (.ident n obj isDef) == some b
  | .sel x => refersToReceiver b x
  | .index x _ => refersToReceiver b x
  | .star x => refersToReceiver b x
  | _ => false

/-- Does this statement count as a receiver mutation for receiver object
`b`: an assignment one of whose targets refers to the receiver, or an
increment/decrement whose operand does. -/
def mutatesVia (b : Nat) : Stmt → Bool
  | .assign _ _ lhs _ => lhs.toList.any (refersToReceiver b)
  | .incDec x => refersToReceiver b x
  | _ => false

/-- Embeds `findReceiverMutations` (analyzer.go), expressed per
declaration: the method is flagged when its receiver resolves to an object
and some assignment target or inc/dec operand below the declaration refers
to it. -/
def fnMutatesReceiver (fn : FuncDecl) : Bool :=
  match recvObj fn with
  | none => false
  | some b => (stmtListAll fn.body).any (mutatesVia b)

/-! ## NullBearingTracker: `findNilUsages` -/

/-- The object recorded by `findNilUsages` for one side of a comparison:
the side must be an index expression whose base is an identifier with a
non-nil `ast.Object`. -/
def idxObj : Expr → List Nat
  | .index x _ =>
    match x with
    | .ident _ (some b) _ => [b]
    | _ => []
  | _ => []

/-- Objects recorded by the `*ast.BinaryExpr` arm of `findNilUsages`:
for `==`/`!=`, an indexed identifier on either side of `nil`. -/
def binNilObjs : Expr → List Nat
  | .binary op x y =>
    if op == .eql || op == .neq then
      (if isNil y then idxObj x else []) ++ (if isNil x then idxObj y else [])
    else []
  | _ => []

/-- Objects recorded by the `*ast.AssignStmt` arm of `findNilUsages`:
positions `i` where the target is an indexed identifier and the `i`-th
source is `nil` (any assignment token). -/
def assignNilObjs : Stmt → List Nat
  | .assign _ _ lhs rhs =>
    (lhs.toList.enum.flatMap fun p =>
      match idxObj p.2 with
      | [b] =>
        match rhs.toList.get? p.1 with
        | some r => if isNil r then [b] else []
        | none => []
      | _ => [])
  | _ => []

/-- All statements of the unit, in file and preorder order (the statements
the inspector visits; top-level `GenDecl`s contain none). -/
def pkgStmts (files : List File) : List Stmt :=
  files.flatMap fun f =>
    f.decls.flatMap fun d =>
      match d with
      | .func fn => stmtListAll fn.body
      | .gen _ => []

/-- All expressions of the unit (the expressions the inspector visits). -/
def pkgExprs (files : List File) : List Expr :=
  files.flatMap fun f =>
    f.decls.flatMap fun d =>
      match d with
      | .func fn => stmtListExprs fn.body
      | .gen _ => []

/-- Embeds `findNilUsages` (analyzer.go): the object positions of every
sequence variable that is compared to or assigned `nil` through an indexed
access anywhere in the unit. -/
def nilUsageObjs (files : List File) : List Nat :=
  (pkgExprs files).flatMap binNilObjs ++ (pkgStmts files).flatMap assignNilObjs

/-! ## SuppressionIndex: `isNolintComment` and `buildNolintMap` -/

/-- The whitespace characters trimmed by `strings.TrimSpace` (restricted to
the ASCII whitespace relevant to comment text). -/
def isSpaceChar (c : Char) : Bool :=
  c == ' ' || c == '\t' || c == '\n' || c == '\r'

/-- Embeds `strings.TrimSpace`: drops leading and trailing whitespace. -/
def trimSpaceGo (s : GoStr) : GoStr :=
  ((s.dropWhile isSpaceChar).reverse.dropWhile isSpaceChar).reverse

/-- Embeds `strings.TrimSuffix`: drops the suffix when present. -/
def dropSuffixGo (suf s : GoStr) : GoStr :=
  if suf.isSuffixOf s then s.take (s.length - suf.length) else s

/-- Embeds `strings.Split(s, ",")`: the comma-separated pieces. -/
def splitCommaGo : GoStr → List GoStr
  | [] => [[]]
  | c :: cs =>
    if c == ',' then [] :: splitCommaGo cs
    else
      match splitCommaGo cs with
      | [] => [[c]]
      | p :: ps => (c :: p) :: ps

/-- The characters of `"nolint"`. -/
def nolintChars : GoStr := "nolint".toList

/-- The characters of `"pointless"` (the analyzer's registered name). -/
def pointlessChars : GoStr := "pointless".toList

/-- The characters of `"pointless:ignore"`. -/
def pointlessIgnoreChars : GoStr := "pointless:ignore".toList

/-- Embeds `isNolintComment` (analyzer.go) on the already stripped and
trimmed comment text: a `nolint` prefix followed by nothing or whitespace
is a blanket match; followed by `:` it matches when some comma-separated,
trimmed entry equals `pointless`; independently, any text beginning with
`pointless:ignore` matches. -/
def isNolintComment (text : GoStr) : Bool :=
  (if nolintChars.isPrefixOf text then
    match text.drop nolintChars.length with
    | [] => true
    | c :: cs =>
      if c == ' ' || c == '\t' then true
      else if c == ':' then
        (splitCommaGo cs).any fun l => trimSpaceGo l == pointlessChars
      else false
   else false)
  || pointlessIgnoreChars.isPrefixOf text

/-- Embeds the marker stripping of `buildNolintMap`: remove a leading
`//`, or a leading `/*` together with a trailing `*/`. -/
def stripMarkers (t : GoStr) : GoStr :=
  if ['/', '/'].isPrefixOf t then t.drop 2
  else if ['/', '*'].isPrefixOf t then dropSuffixGo ['*', '/'] (t.drop 2)
  else t

/-- Does this comment match, after marker stripping and trimming. -/
def commentMatches (c : Comment) : Bool :=
  isNolintComment (trimSpaceGo (stripMarkers c.text))

/-- Embeds `buildNolintMap` (analyzer.go) as a predicate on line numbers:
a line is marked when some comment of some file matches and sits on that
line or on the line directly above it (each matching comment marks its own
line and the immediately following one). -/
def buildNolintMap (files : List File) (line : Nat) : Bool :=
  files.any fun f =>
    f.comments.any fun c =>
      commentMatches c && (line == c.line || line == c.line + 1)

/-! ## ExclusionFilter: `shouldExclude` -/

/-- Helper for the `*` wildcard: try to match the rest of the pattern
(`m`) against every suffix reachable by skipping non-separator
characters. -/
def globStarAux (m : GoStr → Bool) : GoStr → Bool
  | [] => m []
  | c :: cs => m (c :: cs) || (c != '/' && globStarAux m cs)

/-- Model of `path/filepath.Match` restricted to literal characters and the
`*` and `?` wildcards (character classes and escapes are not used by this
development): `*` matches any run of non-separator characters, `?` exactly
one. -/
def globMatch : GoStr → GoStr → Bool
  | [] => fun s => s.isEmpty
  | p :: ps => fun s =>
    if p == '*' then globStarAux (globMatch ps) s
    else
      match s with
      | [] => false
      | c :: cs => (if p == '?' then c != '/' else p == c) && globMatch ps cs

/-- Model of `path/filepath.Base` for the slash-separated paths produced
by the front end: everything after the last separator, with the usual
conventions for empty and all-separator paths. -/
def baseName (p : GoStr) : GoStr :=
  if p.isEmpty then ['.']
  else
    let q := (p.reverse.dropWhile (· == '/')).reverse
    if q.isEmpty then ['/']
    else (q.reverse.takeWhile (· != '/')).reverse

/-- Embeds `shouldExclude` (analyzer.go): some pattern matches the full
path or the base name. -/
def shouldExclude (path : GoStr) (patterns : List GoStr) : Bool :=
  patterns.any fun pat => globMatch pat path || globMatch pat (baseName path)

/-! ## Diagnostics and the rule engine -/

/-- The four pattern categories of the specification, read off the four
`pass.Reportf` sites of analyzer.go. -/
inductive Category where
  | pointerReturn : Category
  | pointerReceiver : Category
  | pointerSequenceReturn : Category
  | pointerSequenceVariable : Category
deriving DecidableEq

/-- A diagnostic: its pattern category and the size and threshold numbers
interpolated into the reported message. -/
structure Diag where
  cat : Category
  size : Nat
  limit : Nat
deriving DecidableEq

/-- Embeds `checkPointerReturn` (analyzer.go), applied to the inner
expression `x` of the `*ast.StarExpr` result type: skip when the function
returns nil, when `x` has no type information, when the type's underlying
is not a struct, or when the size exceeds the threshold; otherwise report
a `PointerReturn`. -/
def checkPointerReturn (th : Nat) (nilRet : Bool) (x : TypeExpr) : List Diag :=
  if nilRet then []
  else
    match typesOf x with
    | none => []
    | some t =>
      if !isStructUnderlying t then []
      else if sizeOf t > th then []
      else [⟨.pointerReturn, sizeOf t, th⟩]

/-- Embeds `checkSliceReturn` (analyzer.go), applied to an
`*ast.ArrayType` result type with length `len` and element `elt`: only a
slice (no length) of pointers qualifies; skip on nil returns, missing type
information, non-struct element, or element size above the threshold;
otherwise report a `PointerSequenceReturn`. -/
def checkSliceReturn (th : Nat) (nilRet : Bool) (len : Option Nat)
    (elt : TypeExpr) : List Diag :=
  if len ≠ none then []
  else
    match elt with
    | .star x =>
      if nilRet then []
      else
        match typesOf x with
        | none => []
        | some t =>
          if !isStructUnderlying t then []
          else if sizeOf t > th then []
          else [⟨.pointerSequenceReturn, sizeOf t, th⟩]
    | _ => []

/-- Embeds `checkReturnType` (analyzer.go): dispatch every result type
entry to the pointer or slice check. -/
def checkReturnType (th : Nat) (nilRet : Bool) (results : List TypeExpr) :
    List Diag :=
  results.flatMap fun r =>
    match r with
    | .star x => checkPointerReturn th nilRet x
    | .array len elt => checkSliceReturn th nilRet len elt
    | _ => []

/-- Embeds `checkMethodReceiver` (analyzer.go): a pointer receiver whose
method does not mutate the receiver and whose pointee type is known and at
most the threshold yields a `PointerReceiver` (the source performs no
struct check here). -/
def checkMethodReceiver (th : Nat) (mutates : Bool) (r : Receiver) :
    List Diag :=
  match r.ty with
  | .star x =>
    if mutates then []
    else
      match typesOf x with
      | none => []
      | some t =>
        if sizeOf t > th then []
        else [⟨.pointerReceiver, sizeOf t, th⟩]
  | _ => []

/-- Embeds `checkFuncDecl` (analyzer.go): the receiver check when a
receiver is present, then the return type check when a result list is
present; the tracker maps are consulted at the declaration itself. -/
def checkFuncDecl (th : Nat) (fn : FuncDecl) : List Diag :=
  (match fn.recv with
   | some r => checkMethodReceiver th (fnMutatesReceiver fn) r
   | none => []) ++
  (match fn.results with
   | some rs => checkReturnType th (fnReturnsNil fn) rs
   | none => [])

/-- The nil-usage guard of `checkGenDecl`: some declared name has a Defs
object recorded by the null-bearing tracker. -/
def specHasNilUsage (nilObjs : List Nat) (vs : ValueSpec) : Bool :=
  vs.names.any fun p =>
    match p.2 with
    | some b => nilObjs.contains b
    | none => false

/-- The per-spec body of `checkGenDecl` (analyzer.go): a spec whose
declared type is a slice of pointers, none of whose names is null-bearing,
with known struct element type of size at most the threshold, yields a
`PointerSequenceVariable`. -/
def specDiags (th : Nat) (nilObjs : List Nat) (vs : ValueSpec) : List Diag :=
  match vs.ty with
  | some (.array none (.star x)) =>
    if specHasNilUsage nilObjs vs then []
    else
      match typesOf x with
      | none => []
      | some t =>
        if !isStructUnderlying t then []
        else if sizeOf t > th then []
        else [⟨.pointerSequenceVariable, sizeOf t, th⟩]
  | _ => []

/-- Embeds `checkGenDecl` (analyzer.go): only `var` declarations are
inspected, spec by spec. -/
def checkGenDecl (th : Nat) (nilObjs : List Nat) (g : GenDecl) : List Diag :=
  if !g.isVar then []
  else g.specs.flatMap (specDiags th nilObjs)

/-- The nil-usage guard of `checkAssignStmt`: the `i`-th target is an
identifier with a Defs object recorded by the null-bearing tracker. -/
def assignLhsNilUsage (nilObjs : List Nat) (lhs : List Expr) (i : Nat) :
    Bool :=
  match lhs.get? i with
  | some l =>
    match defsOf l with
    | some b => nilObjs.contains b
    | none => false
  | none => false

/-- The per-source-expression body of `checkAssignStmt` (analyzer.go):
position `i` with source `r` yields a `PointerSequenceVariable` when `r`
is `make` applied to a slice-of-pointer type, the corresponding target is
not null-bearing, and the element type is a known struct of size at most
the threshold. -/
def assignItem (th : Nat) (nilObjs : List Nat) (lhs : List Expr)
    (i : Nat) (r : Expr) : List Diag :=
  match r with
  | .call (.ident fname _ _) args =>
    if fname == "make" then
      match args.toList.head? with
      | some (.tyE (.array none (.star x))) =>
        if assignLhsNilUsage nilObjs lhs i then []
        else
          match typesOf x with
          | none => []
          | some t =>
            if !isStructUnderlying t then []
            else if sizeOf t > th then []
            else [⟨.pointerSequenceVariable, sizeOf t, th⟩]
      | _ => []
    else []
  | _ => []

/-- Embeds `checkAssignStmt` (analyzer.go): only `:=` statements are
inspected, source expression by source expression. -/
def checkAssignStmt (th : Nat) (nilObjs : List Nat) (isDefine : Bool)
    (lhs rhs : List Expr) : List Diag :=
  if !isDefine then []
  else rhs.enum.flatMap fun p => assignItem th nilObjs lhs p.1 p.2

/-! ## The run loop: `run` -/

/-- A node of the inspector's filtered preorder traversal
(`*ast.FuncDecl`, `*ast.GenDecl`, `*ast.AssignStmt`). -/
inductive Node where
  | nFunc : FuncDecl → Node
  | nGen : GenDecl → Node
  | nAssign : Nat → Bool → ExprList → ExprList → Node
deriving DecidableEq

/-- The source line of a node's position, used by the suppression check. -/
def nodeLine : Node → Nat
  | .nFunc fn => fn.line
  | .nGen g => g.line
  | .nAssign ln _ _ _ => ln

/-- The filtered nodes contributed by one statement. -/
def nodeOfStmt : Stmt → List Node
  | .assign ln d lhs rhs => [.nAssign ln d lhs rhs]
  | .declS g => [.nGen g]
  | _ => []

/-- The filtered nodes of one declaration, in preorder: the declaration
itself, then the assignment statements and nested `GenDecl`s of its
body. -/
def declNodes : Decl → List Node
  | .func fn => .nFunc fn :: (stmtListAll fn.body).flatMap nodeOfStmt
  | .gen g => [.nGen g]

/-- The filtered nodes of one file. -/
def fileNodes (f : File) : List Node :=
  f.decls.flatMap declNodes

/-- The dispatch of the `run` callback on a node. -/
def checkNode (th : Nat) (nilObjs : List Nat) : Node → List Diag
  | .nFunc fn => checkFuncDecl th fn
  | .nGen g => checkGenDecl th nilObjs g
  | .nAssign _ d lhs rhs => checkAssignStmt th nilObjs d lhs.toList rhs.toList

/-- The body of the `run` callback for one node: skip excluded files, skip
suppressed lines, then dispatch. -/
def gateNode (th : Nat) (nilObjs : List Nat) (ex : Bool)
    (nolint : Nat → Bool) (n : Node) : List Diag :=
  if ex then []
  else if nolint (nodeLine n) then []
  else checkNode th nilObjs n

/-- The diagnostics contributed by one file: the exclusion decision is
taken once for the file (mirroring the `excludedFiles` map built before
the traversal, populated only when patterns are configured), then every
node is gated and checked. -/
def fileDiags (th : Nat) (patterns : List GoStr) (nolint : Nat → Bool)
    (nilObjs : List Nat) (f : File) : List Diag :=
  let ex := if patterns.isEmpty then false else shouldExclude f.name patterns
  (fileNodes f).flatMap (gateNode th nilObjs ex nolint)

/-- Embeds `run` (analyzer.go): build the suppression index and the three
trackers over the whole unit, then walk the filtered nodes of every file
accumulating diagnostics. -/
def runPass (th : Nat) (patterns : List GoStr) (files : List File) :
    List Diag :=
  files.flatMap
    (fileDiags th patterns (buildNolintMap files) (nilUsageObjs files))

/-! ## Concrete material used by witnesses and counterexamples -/

/-- A type expression naming `SmallStruct`. -/
def xSmall : TypeExpr := .tyIdent (some smallStructTy)

/-- The `nil` identifier (name `nil`, no `ast.Object`). -/
def nilC : Expr := .ident "nil" none false

/-- A function with two pointer-to-`SmallStruct` results and an empty
body: `func f() (*SmallStruct, *SmallStruct)`. -/
def fnTwoPtr : FuncDecl :=
  { line := 1, recv := none, results := some [.star xSmall, .star xSmall],
    body := .nil }

/-- The `FindSmallStruct` pattern of the test data: returns
`*SmallStruct`, with a `return nil` branch in its body. -/
def fnFind : FuncDecl :=
  { line := 25, recv := none, results := some [.star xSmall],
    body := .cons (.block (.cons (.ret (.cons nilC .nil)) .nil))
      (.cons (.ret (.cons .otherE .nil)) .nil) }

/-- A function returning `*SmallStruct` whose only `return nil` sits
inside a nested function literal; the function itself always returns a
non-nil pointer. -/
def fnLitEx : FuncDecl :=
  { line := 30, recv := none, results := some [.star xSmall],
    body := .cons
      (.assign 31 true (.cons (.ident "f" (some 5) true) .nil)
        (.cons (.funcLit (.cons (.ret (.cons nilC .nil)) .nil)) .nil))
      (.cons (.ret (.cons .otherE .nil)) .nil) }

/-- The `SetName` pattern of the test data: a method on `*SmallStruct`
(receiver object 1) that assigns to a field of its receiver. -/
def fnSet : FuncDecl :=
  { line := 55, recv := some ⟨[("s", some 1)], .star xSmall⟩,
    results := none,
    body := .cons
      (.assign 56 false (.cons (.sel (.ident "s" (some 1) false)) .nil)
        (.cons .otherE .nil)) .nil }

/-- A spec declaring `items []*SmallStruct` with object 9. -/
def specItems : ValueSpec :=
  ⟨[("items", some 9)], some (.array none (.star xSmall))⟩

/-- A file whose single function compares `items[0] == nil`
(object 9). -/
def fUse : File :=
  { name := "a.go".toList,
    decls := [.func
      { line := 89, recv := none, results := none,
        body := .cons
          (.exprS (.binary .eql
            (.index (.ident "items" (some 9) false) .otherE) nilC)) .nil }],
    comments := [] }

/-- A function that would fire `PointerReturn` on line 105. -/
def fnNolint : FuncDecl :=
  { line := 105, recv := none, results := some [.star xSmall],
    body := .cons (.ret (.cons .otherE .nil)) .nil }

/-- The file containing `fnNolint`, with a `//nolint:pointless` comment
on the line directly above the declaration. -/
def fNl : File :=
  { name := "a.go".toList, decls := [.func fnNolint],
    comments := [⟨104, "//nolint:pointless".toList⟩] }

/-- The same declaration in a file with no comments, used by the
exclusion witness. -/
def fEx : File :=
  { name := "dir/a.go".toList, decls := [.func fnNolint], comments := [] }

/-! ## Helper lemmas -/

mutual
/-- A statement of the body proper is among all statements. -/
theorem mem_stmtAll_of_direct :
    ∀ (s t : Stmt), t ∈ stmtDirect s → t ∈ stmtAll s
  | .ret es, t, h => by
    simp only [stmtDirect, List.mem_singleton] at h
    subst h; simp [stmtAll]
  | .assign ln d lhs rhs, t, h => by
    simp only [stmtDirect, List.mem_singleton] at h
    subst h; simp [stmtAll]
  | .incDec x, t, h => by
    simp only [stmtDirect, List.mem_singleton] at h
    subst h; simp [stmtAll]
  | .block ss, t, h => by
    simp only [stmtDirect, List.mem_cons] at h
    rcases h with h | h
    · simp [stmtAll, h]
    · simp only [stmtAll, List.mem_cons]
      exact Or.inr (mem_stmtListAll_of_direct ss t h)
  | .exprS e, t, h => by
    simp only [stmtDirect, List.mem_singleton] at h
    subst h; simp [stmtAll]
  | .declS g, t, h => by
    simp only [stmtDirect, List.mem_singleton] at h
    subst h; simp [stmtAll]
  | .otherS, t, h => by
    simp only [stmtDirect, List.mem_singleton] at h
    subst h; simp [stmtAll]

/-- A statement of the sequence's body proper is among all statements. -/
theorem mem_stmtListAll_of_direct :
    ∀ (ss : StmtList) (t : Stmt), t ∈ stmtListDirect ss → t ∈ stmtListAll ss
  | .nil, t, h => by simp [stmtListDirect] at h
  | .cons s ss, t, h => by
    simp only [stmtListDirect, List.mem_append] at h
    simp only [stmtListAll, List.mem_append]
    rcases h with h | h
    · exact Or.inl (mem_stmtAll_of_direct s t h)
    · exact Or.inr (mem_stmtListAll_of_direct ss t h)
end

/-- With the nil-return flag set, the pointer-return check is silent. -/
theorem checkPointerReturn_nilRet (th : Nat) (x : TypeExpr) :
    checkPointerReturn th true x = [] := rfl

/-- With the nil-return flag set, the slice-return check is silent. -/
theorem checkSliceReturn_nilRet (th : Nat) (len : Option Nat)
    (elt : TypeExpr) : checkSliceReturn th true len elt = [] := by
  unfold checkSliceReturn
  split
  · rfl
  · split <;> rfl

/-- With the nil-return flag set, the whole return-type check is silent. -/
theorem checkReturnType_nilRet (th : Nat) (rs : List TypeExpr) :
    checkReturnType th true rs = [] := by
  unfold checkReturnType
  induction rs with
  | nil => rfl
  | cons r rs ih =>
    rw [List.flatMap_cons, ih]
    cases r <;>
      simp [checkPointerReturn_nilRet, checkSliceReturn_nilRet]

/-- With the mutation flag set, the receiver check is silent. -/
theorem checkMethodReceiver_mutates (th : Nat) (r : Receiver) :
    checkMethodReceiver th true r = [] := by
  unfold checkMethodReceiver
  split <;> rfl

/-- Every diagnostic of the receiver check is a `PointerReceiver`. -/
theorem checkMethodReceiver_cat (th : Nat) (m : Bool) (r : Receiver) :
    ∀ d ∈ checkMethodReceiver th m r, d.cat = Category.pointerReceiver := by
  intro d hd
  unfold checkMethodReceiver at hd
  split at hd
  · split at hd
    · simp at hd
    · split at hd
      · simp at hd
      · split at hd
        · simp at hd
        · simp at hd; subst hd; rfl
  · simp at hd

/-- Every diagnostic of the pointer-return check is a `PointerReturn`. -/
theorem checkPointerReturn_cat (th : Nat) (b : Bool) (x : TypeExpr) :
    ∀ d ∈ checkPointerReturn th b x, d.cat = Category.pointerReturn := by
  intro d hd
  unfold checkPointerReturn at hd
  split at hd
  · simp at hd
  · split at hd
    · simp at hd
    · split at hd
      · simp at hd
      · split at hd
        · simp at hd
        · simp at hd; subst hd; rfl

/-- Every diagnostic of the slice-return check is a
`PointerSequenceReturn`. -/
theorem checkSliceReturn_cat (th : Nat) (b : Bool) (len : Option Nat)
    (elt : TypeExpr) :
    ∀ d ∈ checkSliceReturn th b len elt,
      d.cat = Category.pointerSequenceReturn := by
  intro d hd
  unfold checkSliceReturn at hd
  split at hd
  · simp at hd
  · split at hd
    · split at hd
      · simp at hd
      · split at hd
        · simp at hd
        · split at hd
          · simp at hd
          · split at hd
            · simp at hd
            · simp at hd; subst hd; rfl
    · simp at hd

/-- Every diagnostic of the return-type check is a `PointerReturn` or a
`PointerSequenceReturn`. -/
theorem checkReturnType_cat (th : Nat) (b : Bool) (rs : List TypeExpr) :
    ∀ d ∈ checkReturnType th b rs,
      d.cat = Category.pointerReturn ∨
        d.cat = Category.pointerSequenceReturn := by
  intro d hd
  unfold checkReturnType at hd
  rw [List.mem_flatMap] at hd
  obtain ⟨r, _, hd⟩ := hd
  match r with
  | .tyIdent t => simp at hd
  | .otherT => simp at hd
  | .star x => exact Or.inl (checkPointerReturn_cat th b x d hd)
  | .array len elt => exact Or.inr (checkSliceReturn_cat th b len elt d hd)

/-- The pointer-return check emits at most one diagnostic. -/
theorem checkPointerReturn_len (th : Nat) (b : Bool) (x : TypeExpr) :
    (checkPointerReturn th b x).length ≤ 1 := by
  unfold checkPointerReturn
  split
  · simp
  · split
    · simp
    · split
      · simp
      · split <;> simp

/-- The slice-return check emits at most one diagnostic. -/
theorem checkSliceReturn_len (th : Nat) (b : Bool) (len : Option Nat)
    (elt : TypeExpr) : (checkSliceReturn th b len elt).length ≤ 1 := by
  unfold checkSliceReturn
  split
  · simp
  · split
    · split
      · simp
      · split
        · simp
        · split
          · simp
          · split <;> simp
    · simp

/-- The receiver check emits at most one diagnostic. -/
theorem checkMethodReceiver_len (th : Nat) (m : Bool) (r : Receiver) :
    (checkMethodReceiver th m r).length ≤ 1 := by
  unfold checkMethodReceiver
  split
  · split
    · simp
    · split
      · simp
      · split <;> simp
  · simp

/-! ## Claims -/

/-- C8, counterexample: the claim says dynamic-sequence (slice) types have
size one machine word (8 bytes), but the size function — `go/types`
`Sizeof` under the gc/amd64 model and under the documented
`StdSizes{8, 8}` fallback alike — returns three words (24 bytes) for a
slice, here at the concrete slice-of-`SmallStruct` type. -/
theorem C8_counterexample :
    sizeOf (Ty.slice smallStructTy) = 24 ∧ (24 : Nat) ≠ 8 := by
  exact ⟨rfl, by decide⟩

/-- C8, amended: the size function is total (it never fails; the 8-byte
word, 8-byte max-alignment fallback makes it defined on every type) and
returns one machine word (8 bytes) for pointer, map-like and channel-like
types, but three machine words (24 bytes) for dynamic-sequence (slice)
types. -/
theorem C8_theorem :
    ∀ (t k v : Ty),
      sizeOf (Ty.ptr t) = 8 ∧ sizeOf (Ty.mapT k v) = 8 ∧
        sizeOf (Ty.chanT t) = 8 ∧ sizeOf (Ty.slice t) = 24 := by
  intro t k v
  exact ⟨rfl, rfl, rfl, rfl⟩

/-- C6, counterexample: the claim says text that merely begins with
`pointless:ignore` but continues with further characters does not suppress
under the tool-specific form; but `isNolintComment` uses a prefix test, so
the concrete text `pointless:ignore extra` (not equal to
`pointless:ignore`) does match. -/
theorem C6_counterexample :
    isNolintComment "pointless:ignore extra".toList = true ∧
      "pointless:ignore extra".toList ≠ "pointless:ignore".toList := by
  exact ⟨by decide, by decide⟩

/-- C6, amended: a comment suppresses under the tool-specific form exactly
when its delimiter-stripped, whitespace-trimmed text begins with
`pointless:ignore`; any continuation after that prefix is accepted.  For
texts not beginning with `nolint`, the prefix test is the whole decision. -/
theorem C6_theorem :
    (∀ t : GoStr, pointlessIgnoreChars.isPrefixOf t = true →
      isNolintComment t = true) ∧
    (∀ t : GoStr, nolintChars.isPrefixOf t = false →
      isNolintComment t = pointlessIgnoreChars.isPrefixOf t) := by
  constructor
  · intro t h
    simp [isNolintComment, h]
  · intro t h
    simp [isNolintComment, h]

/-- C6, witness: the amended claim applied to the concrete text
`pointless:ignore extra`. -/
theorem C6_witness :
    pointlessIgnoreChars.isPrefixOf "pointless:ignore extra".toList = true ∧
      isNolintComment "pointless:ignore extra".toList = true :=
  ⟨by decide, C6_theorem.1 "pointless:ignore extra".toList (by decide)⟩

/-- C2: for each of the four rules, with every other firing condition in
place (no nil return or mutation, resolved type information, struct
underlying type, no null-bearing name), a diagnostic is produced exactly
when the computed size is at most the threshold: size equal to the
threshold fires, strictly greater never does. -/
theorem C2_theorem (th : Nat) :
    (∀ x t, typesOf x = some t → isStructUnderlying t = true →
      (checkPointerReturn th false x ≠ [] ↔ sizeOf t ≤ th)) ∧
    (∀ x t (r : Receiver), r.ty = TypeExpr.star x → typesOf x = some t →
      isStructUnderlying t = true →
      (checkMethodReceiver th false r ≠ [] ↔ sizeOf t ≤ th)) ∧
    (∀ x t, typesOf x = some t → isStructUnderlying t = true →
      (checkSliceReturn th false none (TypeExpr.star x) ≠ [] ↔
        sizeOf t ≤ th)) ∧
    (∀ nilObjs vs x t, vs.ty = some (TypeExpr.array none (TypeExpr.star x)) →
      specHasNilUsage nilObjs vs = false → typesOf x = some t →
      isStructUnderlying t = true →
      (specDiags th nilObjs vs ≠ [] ↔ sizeOf t ≤ th)) := by
  refine ⟨?_, ?_, ?_, ?_⟩
  · intro x t hx hs
    by_cases hgt : sizeOf t > th
    · simp [checkPointerReturn, hx, hs, hgt]
    · simp [checkPointerReturn, hx, hs, hgt]
      omega
  · intro x t r hr hx hs
    by_cases hgt : sizeOf t > th
    · simp [checkMethodReceiver, hr, hx, hgt]
    · simp [checkMethodReceiver, hr, hx, hgt]
      omega
  · intro x t hx hs
    by_cases hgt : sizeOf t > th
    · simp [checkSliceReturn, hx, hs, hgt]
    · simp [checkSliceReturn, hx, hs, hgt]
      omega
  · intro nilObjs vs x t hty hnu hx hs
    by_cases hgt : sizeOf t > th
    · simp [specDiags, hty, hnu, hx, hs, hgt]
    · simp [specDiags, hty, hnu, hx, hs, hgt]
      omega

/-- C2, witness: the pointer-return rule at `SmallStruct` (32 bytes) with
the threshold set to exactly 32: the boundary case still fires. -/
theorem C2_witness :
    typesOf xSmall = some smallStructTy ∧
      isStructUnderlying smallStructTy = true ∧
      (checkPointerReturn 32 false xSmall ≠ [] ↔
        sizeOf smallStructTy ≤ 32) ∧
      checkPointerReturn 32 false xSmall =
        [⟨Category.pointerReturn, 32, 32⟩] :=
  ⟨rfl, rfl, (C2_theorem 32).1 xSmall smallStructTy rfl rfl, by decide⟩

/-- C1, counterexample: the claim bounds the diagnostics per (declaration,
category) pair by one; the concrete function with two
pointer-to-`SmallStruct` results receives two `PointerReturn`
diagnostics, one per result entry. -/
theorem C1_counterexample :
    ((checkFuncDecl 1024 fnTwoPtr).filter
        fun d => d.cat == Category.pointerReturn).length = 2 ∧
      ¬ ((checkFuncDecl 1024 fnTwoPtr).filter
          fun d => d.cat == Category.pointerReturn).length ≤ 1 := by
  exact ⟨by decide, by decide⟩

/-- C1, amended: per declaration the engine emits at most one
`PointerReceiver` diagnostic, and at most one return-rule diagnostic per
result-list entry — so a function with several pointer-to-small-struct
results receives one `PointerReturn` diagnostic per such result rather
than one per declaration. -/
theorem C1_theorem (th : Nat) (fn : FuncDecl) :
    ((checkFuncDecl th fn).filter
        fun d => d.cat == Category.pointerReceiver).length ≤ 1 ∧
      (checkReturnType th (fnReturnsNil fn) (fn.results.getD [])).length ≤
        (fn.results.getD []).length := by
  constructor
  · have hrec :
        ∀ r, ((checkMethodReceiver th (fnMutatesReceiver fn) r).filter
          fun d => d.cat == Category.pointerReceiver).length ≤ 1 := by
      intro r
      calc ((checkMethodReceiver th (fnMutatesReceiver fn) r).filter
              fun d => d.cat == Category.pointerReceiver).length
          ≤ (checkMethodReceiver th (fnMutatesReceiver fn) r).length :=
            List.length_filter_le _ _
        _ ≤ 1 := checkMethodReceiver_len _ _ _
    have hret : ∀ (b : Bool) (rs : List TypeExpr),
        (checkReturnType th b rs).filter
          (fun d => d.cat == Category.pointerReceiver) = [] := by
      intro b rs
      rw [List.filter_eq_nil_iff]
      intro d hd
      rcases checkReturnType_cat th b rs d hd with h | h <;> simp [h]
    unfold checkFuncDecl
    rw [List.filter_append]
    cases hfr : fn.recv with
    | none => cases hres : fn.results <;> simp [hret]
    | some r =>
      cases hres : fn.results <;>
        simp only [hret, List.append_nil, List.filter_nil] <;>
        exact hrec r
  · induction fn.results.getD [] with
    | nil => simp [checkReturnType]
    | cons r rs ih =>
      unfold checkReturnType at ih ⊢
      rw [List.flatMap_cons, List.length_append, List.length_cons]
      have hone : (match r with
          | TypeExpr.star x => checkPointerReturn th (fnReturnsNil fn) x
          | TypeExpr.array len elt =>
              checkSliceReturn th (fnReturnsNil fn) len elt
          | _ => []).length ≤ 1 := by
        cases r
        · simp
        · exact checkPointerReturn_len _ _ _
        · exact checkSliceReturn_len _ _ _ _
        · simp
      omega

/-- With the nil-return tracker set for a declaration, none of its
diagnostics is a `PointerReturn` or a `PointerSequenceReturn`. -/
theorem noReturnDiags_of_nilRet (th : Nat) (fn : FuncDecl)
    (hnr : fnReturnsNil fn = true) :
    ∀ d ∈ checkFuncDecl th fn,
      d.cat ≠ Category.pointerReturn ∧
        d.cat ≠ Category.pointerSequenceReturn := by
  intro d hd
  unfold checkFuncDecl at hd
  rw [List.mem_append] at hd
  rcases hd with hd | hd
  · have hcat : d.cat = Category.pointerReceiver := by
      cases hr : fn.recv with
      | none => rw [hr] at hd; simp at hd
      | some r => rw [hr] at hd; exact checkMethodReceiver_cat th _ r d hd
    rw [hcat]
    exact ⟨by decide, by decide⟩
  · cases hres : fn.results with
    | none => rw [hres] at hd; simp at hd
    | some rs =>
      rw [hres] at hd
      have hd2 : d ∈ checkReturnType th (fnReturnsNil fn) rs := hd
      rw [hnr, checkReturnType_nilRet] at hd2
      simp at hd2

/-- C3: a declaration whose body proper contains a return statement with
the `nil` sentinel as a direct result operand is tracked as nil-returning
and receives neither a `PointerReturn` nor a `PointerSequenceReturn`
diagnostic, whatever the struct size and threshold. -/
theorem C3_theorem (th : Nat) (fn : FuncDecl)
    (h : ∃ s ∈ stmtListDirect fn.body, isNilReturn s = true) :
    ∀ d ∈ checkFuncDecl th fn,
      d.cat ≠ Category.pointerReturn ∧
        d.cat ≠ Category.pointerSequenceReturn := by
  obtain ⟨s, hs, hnil⟩ := h
  exact noReturnDiags_of_nilRet th fn
    (List.any_eq_true.mpr ⟨s, mem_stmtListAll_of_direct fn.body s hs, hnil⟩)

/-- C3, witness: the `FindSmallStruct` pattern — small struct returned by
pointer with a `return nil` branch — yields no return-rule diagnostic. -/
theorem C3_witness :
    (∃ s ∈ stmtListDirect fnFind.body, isNilReturn s = true) ∧
      ∀ d ∈ checkFuncDecl 1024 fnFind,
        d.cat ≠ Category.pointerReturn ∧
          d.cat ≠ Category.pointerSequenceReturn :=
  ⟨by decide, C3_theorem 1024 fnFind (by decide)⟩

/-- C10: a `nil`-bearing return statement anywhere lexically below the
declaration — the traversal does not stop at nested function literals —
marks the declaration as nil-returning and exempts it from `PointerReturn`
and `PointerSequenceReturn`. -/
theorem C10_theorem (th : Nat) (fn : FuncDecl)
    (h : ∃ s ∈ stmtListAll fn.body, isNilReturn s = true) :
    fnReturnsNil fn = true ∧
      ∀ d ∈ checkFuncDecl th fn,
        d.cat ≠ Category.pointerReturn ∧
          d.cat ≠ Category.pointerSequenceReturn := by
  have hnr : fnReturnsNil fn = true := List.any_eq_true.mpr h
  exact ⟨hnr, noReturnDiags_of_nilRet th fn hnr⟩

/-- C10, witness: a function whose only `return nil` sits inside a nested
function literal — its body proper never returns nil — is still recorded
as nil-returning and silenced. -/
theorem C10_witness :
    (∃ s ∈ stmtListAll fnLitEx.body, isNilReturn s = true) ∧
      ((stmtListDirect fnLitEx.body).all fun s => !isNilReturn s) = true ∧
      (fnReturnsNil fnLitEx = true ∧
        ∀ d ∈ checkFuncDecl 1024 fnLitEx,
          d.cat ≠ Category.pointerReturn ∧
            d.cat ≠ Category.pointerSequenceReturn) :=
  ⟨by decide, by decide, C10_theorem 1024 fnLitEx (by decide)⟩

/-- C4: a method whose body assigns to, increments or decrements an
expression resolving through selector, index and dereference steps to the
receiver's object never receives a `PointerReceiver` diagnostic; and
resolution is by object identity, so an identifier bound to a different
object — a shadowing local of any name — never refers to the receiver. -/
theorem C4_theorem :
    (∀ (th : Nat) (fn : FuncDecl) (b : Nat), recvObj fn = some b →
      (∃ s ∈ stmtListAll fn.body, mutatesVia b s = true) →
      ∀ d ∈ checkFuncDecl th fn, d.cat ≠ Category.pointerReceiver) ∧
    (∀ (nm : String) (b bl : Nat), bl ≠ b →
      refersToReceiver b (Expr.ident nm (some bl) false) = false) := by
  constructor
  · intro th fn b hro hmut d hd
    have hm : fnMutatesReceiver fn = true := by
      unfold fnMutatesReceiver
      rw [hro]
      exact List.any_eq_true.mpr hmut
    unfold checkFuncDecl at hd
    rw [List.mem_append] at hd
    rcases hd with hd | hd
    · cases hr : fn.recv with
      | none => rw [hr] at hd; simp at hd
      | some r =>
        rw [hr] at hd
        have hd2 : d ∈ checkMethodReceiver th (fnMutatesReceiver fn) r := hd
        rw [hm, checkMethodReceiver_mutates] at hd2
        simp at hd2
    · cases hres : fn.results with
      | none => rw [hres] at hd; simp at hd
      | some rs =>
        rw [hres] at hd
        rcases checkReturnType_cat th _ rs d hd with h | h <;> simp [h]
  · intro nm b bl hne
    simp [refersToReceiver, usesOf]
    omega

/-- C4, witness: the `SetName` pattern — a method on `*SmallStruct`
assigning to a field of its receiver — yields no `PointerReceiver`
diagnostic. -/
theorem C4_witness :
    recvObj fnSet = some 1 ∧
      (∃ s ∈ stmtListAll fnSet.body, mutatesVia 1 s = true) ∧
      ∀ d ∈ checkFuncDecl 1024 fnSet, d.cat ≠ Category.pointerReceiver :=
  ⟨rfl, by decide, C4_theorem.1 1024 fnSet 1 rfl (by decide)⟩

/-- C5: the null-bearing tracker records the object — never the name — of
a sequence variable indexed against `nil` on either side of an `==`/`!=`
comparison or assigned `nil` through an indexed target, anywhere in the
unit; and a recorded object silences the `PointerSequenceVariable` rule
both for `var` specs declaring it and for `:=` targets bound to it. -/
theorem C5_theorem :
    (∀ (nm : String) (b : Nat) (iE : Expr),
      binNilObjs (Expr.binary BinOp.eql
        (Expr.index (Expr.ident nm (some b) false) iE) nilC) = [b] ∧
      binNilObjs (Expr.binary BinOp.neq
        (Expr.index (Expr.ident nm (some b) false) iE) nilC) = [b] ∧
      binNilObjs (Expr.binary BinOp.eql nilC
        (Expr.index (Expr.ident nm (some b) false) iE)) = [b] ∧
      binNilObjs (Expr.binary BinOp.neq nilC
        (Expr.index (Expr.ident nm (some b) false) iE)) = [b]) ∧
    (∀ (ln : Nat) (tok : Bool) (nm : String) (b : Nat) (iE : Expr)
        (rest : ExprList),
      assignNilObjs (Stmt.assign ln tok
        (.cons (Expr.index (Expr.ident nm (some b) false) iE) .nil)
        (.cons nilC rest)) = [b]) ∧
    (∀ (files : List File) (e : Expr) (b : Nat),
      e ∈ pkgExprs files → b ∈ binNilObjs e → b ∈ nilUsageObjs files) ∧
    (∀ (files : List File) (s : Stmt) (b : Nat),
      s ∈ pkgStmts files → b ∈ assignNilObjs s → b ∈ nilUsageObjs files) ∧
    (∀ (th : Nat) (nilObjs : List Nat) (b : Nat) (vs : ValueSpec),
      nilObjs.contains b = true → (∃ p ∈ vs.names, p.2 = some b) →
      specDiags th nilObjs vs = []) ∧
    (∀ (th : Nat) (nilObjs : List Nat) (b : Nat) (lhs : List Expr)
        (i : Nat) (r : Expr) (nm : String),
      lhs.get? i = some (Expr.ident nm (some b) true) →
      nilObjs.contains b = true → assignItem th nilObjs lhs i r = []) := by
  refine ⟨?_, ?_, ?_, ?_, ?_, ?_⟩
  · intro nm b iE
    exact ⟨rfl, rfl, rfl, rfl⟩
  · intro ln tok nm b iE rest
    rfl
  · intro files e b he hb
    unfold nilUsageObjs
    rw [List.mem_append]
    exact Or.inl (List.mem_flatMap.mpr ⟨e, he, hb⟩)
  · intro files s b hs hb
    unfold nilUsageObjs
    rw [List.mem_append]
    exact Or.inr (List.mem_flatMap.mpr ⟨s, hs, hb⟩)
  · intro th nilObjs b vs hc hex
    have htrue : specHasNilUsage nilObjs vs = true := by
      obtain ⟨p, hp, hp2⟩ := hex
      refine List.any_eq_true.mpr ⟨p, hp, ?_⟩
      rw [hp2]
      exact hc
    unfold specDiags
    split
    · rw [htrue]
      rfl
    · rfl
  · intro th nilObjs b lhs i r nm hget hc
    have htrue : assignLhsNilUsage nilObjs lhs i = true := by
      unfold assignLhsNilUsage
      rw [hget]
      exact hc
    unfold assignItem
    split <;> try rfl
    rw [htrue]
    split <;> try rfl
    split <;> try rfl

/-- C5, witness: in a unit containing `items[0] == nil` (object 9), the
tracker records object 9 and the `var items []*SmallStruct` spec yields no
diagnostic. -/
theorem C5_witness :
    (nilUsageObjs [fUse]).contains 9 = true ∧
      (∃ p ∈ specItems.names, p.2 = some 9) ∧
      specDiags 1024 (nilUsageObjs [fUse]) specItems = [] :=
  ⟨by decide, by decide,
    C5_theorem.2.2.2.2.1 1024 (nilUsageObjs [fUse]) 9 specItems
      (by decide) (by decide)⟩

/-- C7: the suppression index marks a line exactly when some matching
comment sits on it or on the line directly above; any node whose starting
line is marked contributes no diagnostic under any rule; and a scoped
comment naming only another tool (`//nolint:othertool`) matches nothing. -/
theorem C7_theorem :
    (∀ (files : List File) (line : Nat),
      buildNolintMap files line = true ↔
        ∃ f ∈ files, ∃ c ∈ f.comments,
          commentMatches c = true ∧ (line = c.line ∨ line = c.line + 1)) ∧
    (∀ (th : Nat) (nilObjs : List Nat) (ex : Bool) (nolint : Nat → Bool)
        (n : Node), nolint (nodeLine n) = true →
      gateNode th nilObjs ex nolint n = []) ∧
    isNolintComment
      (trimSpaceGo (stripMarkers "//nolint:othertool".toList)) = false := by
  refine ⟨?_, ?_, by decide⟩
  · intro files line
    simp [buildNolintMap, List.any_eq_true]
  · intro th nilObjs ex nolint n h
    unfold gateNode
    cases ex <;> simp [h]

/-- C7, witness: the `//nolint:pointless` comment on line 104 marks
line 105, and the declaration starting there contributes nothing. -/
theorem C7_witness :
    (buildNolintMap [fNl] 105 = true ↔
      ∃ f ∈ [fNl], ∃ c ∈ f.comments,
        commentMatches c = true ∧ (105 = c.line ∨ 105 = c.line + 1)) ∧
      gateNode 1024 [] false (buildNolintMap [fNl])
        (Node.nFunc fnNolint) = [] :=
  ⟨C7_theorem.1 [fNl] 105,
    C7_theorem.2.1 1024 [] false (buildNolintMap [fNl])
      (Node.nFunc fnNolint) (by decide)⟩

/-- C9: a file whose full path or bare name matches some configured glob
pattern contributes zero diagnostics — the exclusion decision is taken
once for the file, before any of its nodes is examined. -/
theorem C9_theorem (th : Nat) (patterns : List GoStr) (nolint : Nat → Bool)
    (nilObjs : List Nat) (f : File)
    (h : ∃ pat ∈ patterns, globMatch pat f.name = true ∨
      globMatch pat (baseName f.name) = true) :
    fileDiags th patterns nolint nilObjs f = [] := by
  have hex : shouldExclude f.name patterns = true := by
    obtain ⟨pat, hp, hm⟩ := h
    refine List.any_eq_true.mpr ⟨pat, hp, ?_⟩
    rcases hm with hm | hm <;> simp [hm]
  have hne : patterns.isEmpty = false := by
    obtain ⟨pat, hp, _⟩ := h
    cases patterns
    · simp at hp
    · rfl
  have hex2 :
      (if patterns.isEmpty then false else shouldExclude f.name patterns)
        = true := by
    simp [hne, hex]
  simp only [fileDiags]
  rw [hex2]
  induction fileNodes f with
  | nil => rfl
  | cons n ns ih => simp [List.flatMap_cons, ih, gateNode]

/-- C9, witness: the pattern `*.go` matches the base name of `dir/a.go`,
and the file containing a would-fire declaration contributes nothing. -/
theorem C9_witness :
    (∃ pat ∈ ["*.go".toList], globMatch pat fEx.name = true ∨
      globMatch pat (baseName fEx.name) = true) ∧
      fileDiags 1024 ["*.go".toList] (fun _ => false) [] fEx = [] :=
  ⟨by decide,
    C9_theorem 1024 ["*.go".toList] (fun _ => false) [] fEx (by decide)⟩

end Pointless
